import Mathlib

/-!
Verification development for the PufferFlow / TaskFlow editor extension.

The definitions below are shallow embeddings of the TypeScript sources:
`src/taskParser.ts` (task line grammar, document task cache),
`src/buttonRenderer.ts` (button state machine, execution lifecycle,
timeout bookkeeping), the `StateManager` (checkbox mutation via
string `includes`/`replace`), and `src/chatIntegrator.ts` (chat dispatch
with its fallback chain).  Documents are modelled as lists of lines
(the host editor's line structure), strings as `List Char`, JS `Map`s as
association lists in insertion order, and JS timers as an explicit list of
armed timers.  Each fallible host call in the chat integrator is driven by
an explicit environment of booleans saying which host operations resolve.
-/

namespace PufferFlow

/-! ### JS-style characters and strings -/

/-- The newline character, named to keep character escapes out of patterns. -/
def chNl : Char := Char.ofNat 10

/-- The space character. -/
def wsp : Char := Char.ofNat 32

/-- JS regex `\s` restricted to the ASCII whitespace characters
(space, tab, newline, carriage return, vertical tab, form feed). -/
def isWhite (c : Char) : Bool :=
  c = Char.ofNat 32 || c = Char.ofNat 9 || c = Char.ofNat 10 ||
  c = Char.ofNat 13 || c = Char.ofNat 11 || c = Char.ofNat 12

/-- `startsWithL pat s` : `s` begins with `pat` (JS `String.startsWith`). -/
def startsWithL : List Char → List Char → Bool
  | [], _ => true
  | _ :: _, [] => false
  | p :: ps, c :: cs => p = c && startsWithL ps cs

/-- `containsSub s pat` : `pat` occurs somewhere in `s` (JS `String.includes`). -/
def containsSub : List Char → List Char → Bool
  | [], pat => startsWithL pat []
  | c :: cs, pat => startsWithL pat (c :: cs) || containsSub cs pat

/-- `endsWithL s pat` : `s` ends with `pat` (JS `String.endsWith`). -/
def endsWithL (s pat : List Char) : Bool :=
  startsWithL pat.reverse s.reverse

/-- JS `String.replace` with a string pattern: replace the first occurrence
of `pat` by `repl`; return `s` unchanged when `pat` does not occur. -/
def replaceFirst : List Char → List Char → List Char → List Char
  | [], _, _ => []
  | c :: cs, pat, repl =>
    if startsWithL pat (c :: cs) then repl ++ (c :: cs).drop pat.length
    else c :: replaceFirst cs pat repl

/-- JS `String.trim` over the modelled whitespace set. -/
def trimL (s : List Char) : List Char :=
  ((s.dropWhile isWhite).reverse.dropWhile isWhite).reverse

/-- JS `String.toLowerCase` (ASCII). -/
def lowerL (s : List Char) : List Char := s.map Char.toLower

/-- JS `String.split('\n')`; also the host editor's division of a document
body into lines.  `splitNl [] = [[]]`, as in JS. -/
def splitNl : List Char → List (List Char)
  | [] => [[]]
  | c :: rest =>
    if c = chNl then [] :: splitNl rest
    else
      match splitNl rest with
      | [] => [[c]]
      | l :: ls => (c :: l) :: ls

/-- Join lines with newlines: the document body seen by `getText()`. -/
def joinNl : List (List Char) → List Char
  | [] => []
  | [l] => l
  | l :: ls => l ++ chNl :: joinNl ls

/-! ### Task line grammar (`TaskParser.parseTaskLine`, `taskPatterns`) -/

/-- `TaskItem` of `src/taskParser.ts`. -/
structure TaskItem where
  lineNumber : Nat
  taskText : List Char
  isCompleted : Bool
  isExecuting : Bool
  indentationLevel : Nat
  deriving DecidableEq, Repr

/-- The bullet characters of the three `taskPatterns` regexes. -/
def isBullet (c : Char) : Bool := c = '-' || c = '*' || c = '+'

/-- The bracket content accepted by `[([ xX\-])]`. -/
def isMarker (c : Char) : Bool := c = Char.ofNat 32 || c = 'x' || c = 'X' || c = '-'

/-- `TaskParser.parseTaskLine`: the three regexes
`^(\s*)B\s*\[([ xX\-])\]\s*(.+)$` for `B` in `-`, `*`, `+`, with the
captures used as in the source (`taskText.trim()`,
`checkState.toLowerCase() === 'x'`, `checkState === '-'`,
`indentation.length`).  Greedy `\s*` runs never backtrack here because
each is followed by a non-whitespace required character, and the final
`\s*(.+)$` yields the trimmed remainder with at least one character
required after the closing bracket. -/
def parseTaskLine (lineText : List Char) (lineNumber : Nat) : Option TaskItem :=
  let indentation := lineText.takeWhile isWhite
  match lineText.dropWhile isWhite with
  | b :: r1 =>
    if isBullet b then
      match r1.dropWhile isWhite with
      | lb :: m :: rb :: rest =>
        if lb = '[' && rb = ']' && isMarker m && !rest.isEmpty then
          some { lineNumber := lineNumber
                 taskText := trimL rest
                 isCompleted := m.toLower = 'x'
                 isExecuting := m = '-'
                 indentationLevel := indentation.length }
        else none
      | _ => none
    else none
  | [] => none

/-- Modelled from the spec: the literal pattern of §8's grammar-totality
property, `<ws>*[-*+] \[[ xX-]\].*` — leading whitespace run, bullet,
exactly one space, bracketed marker, then anything (possibly empty).
Stated from the spec's words for comparison with `parseTaskLine`. -/
def specGrammar (s : List Char) : Bool :=
  match s.dropWhile isWhite with
  | b :: sp :: '[' :: m :: ']' :: _ =>
    isBullet b && sp = Char.ofNat 32 && isMarker m
  | _ => false

/-- The set of lines the source regexes actually accept: optional leading
whitespace, a bullet, any run of whitespace, a bracketed marker, and at
least one further character. -/
def CodeMatch (s : List Char) : Prop :=
  ∃ ws b ws2 m rest,
    s = ws ++ b :: ws2 ++ '[' :: m :: ']' :: rest ∧
    (∀ c ∈ ws, isWhite c = true) ∧ isBullet b = true ∧
    (∀ c ∈ ws2, isWhite c = true) ∧ isMarker m = true ∧ rest ≠ []

/-! ### Documents and the task cache (`TaskParser`) -/

/-- The slice of `vscode.TextDocument` the sources read: identity, declared
language, filename, revision counter, and the line structure of the text.
`getText()` is `joinNl lines`; `lineAt i` is `lines.get? i`. -/
structure Document where
  uri : String
  languageId : String
  fileName : List Char
  version : Nat
  lines : List (List Char)
  deriving DecidableEq, Repr

/-- `CachedParseResult` of `src/taskParser.ts`. -/
structure CachedParseResult where
  tasks : List TaskItem
  version : Nat
  lastModified : Nat
  documentUri : String
  deriving DecidableEq, Repr

/-- `DocumentChangeInfo` of `src/taskParser.ts`. -/
structure DocumentChangeInfo where
  version : Nat
  lastModified : Nat
  deriving DecidableEq, Repr

/-- JS `Map.get`. -/
def getA {α : Type} : List (String × α) → String → Option α
  | [], _ => none
  | p :: ps, k => if p.1 = k then some p.2 else getA ps k

/-- JS `Map.set`: replace in place when the key exists (insertion order is
kept), append otherwise. -/
def setA {α : Type} : List (String × α) → String → α → List (String × α)
  | [], k, v => [(k, v)]
  | p :: ps, k, v => if p.1 = k then (k, v) :: ps else p :: setA ps k v

/-- JS `Map.delete`. -/
def delA {α : Type} : List (String × α) → String → List (String × α)
  | [], _ => []
  | p :: ps, k => if p.1 = k then delA ps k else p :: delA ps k

/-- `MAX_CACHE_AGE` (10 minutes, in milliseconds). -/
def MAX_CACHE_AGE : Nat := 10 * 60 * 1000

/-- The two `Map`s held by a `TaskParser` instance. -/
structure ParserState where
  parseCache : List (String × CachedParseResult)
  documentVersions : List (String × DocumentChangeInfo)
  deriving DecidableEq, Repr

/-- The empty `TaskParser` state (a freshly constructed parser). -/
def pEmpty : ParserState := ⟨[], []⟩

/-- `TaskParser.isCacheValid`. -/
def isCacheValid (c : CachedParseResult) (currentVersion currentTime : Nat) :
    Bool :=
  c.version = currentVersion && !(currentTime - c.lastModified > MAX_CACHE_AGE)

/-- The scan loop of `TaskParser.performParsing`: every line through the
grammar, in order. -/
def scanLines : Nat → List (List Char) → List TaskItem
  | _, [] => []
  | i, l :: ls =>
    match parseTaskLine l i with
    | some t => t :: scanLines (i + 1) ls
    | none => scanLines (i + 1) ls

/-- `TaskParser.performParsing`. -/
def performParsing (doc : Document) : List TaskItem := scanLines 0 doc.lines

/-- `TaskParser.parseDocument`.  The returned `Bool` records whether the
document was re-scanned (the miss path), the instrumentation §8 of the
spec asks for.  Both the cached entry and the returned list are spread
copies in the source; values are immutable here, so copying is identity. -/
def parseDocument (currentTime : Nat) (doc : Document) (st : ParserState) :
    List TaskItem × ParserState × Bool :=
  match getA st.parseCache doc.uri with
  | some c =>
    if isCacheValid c doc.version currentTime then (c.tasks, st, false)
    else
      let tasks := performParsing doc
      (tasks,
       { parseCache := setA st.parseCache doc.uri
           ⟨tasks, doc.version, currentTime, doc.uri⟩
         documentVersions := setA st.documentVersions doc.uri
           ⟨doc.version, currentTime⟩ },
       true)
  | none =>
    let tasks := performParsing doc
    (tasks,
     { parseCache := setA st.parseCache doc.uri
         ⟨tasks, doc.version, currentTime, doc.uri⟩
       documentVersions := setA st.documentVersions doc.uri
         ⟨doc.version, currentTime⟩ },
     true)

/-- The string literal `"tasks.md"`. -/
def tasksMdPat : List Char := "tasks.md".toList

/-- `TaskParser.isTasksDocument`. -/
def isTasksDocument (doc : Document) : Bool :=
  if !(doc.languageId = "markdown" : Bool) then false
  else
    let fileName := lowerL doc.fileName
    if containsSub fileName tasksMdPat ||
        endsWithL fileName tasksMdPat then true
    else (splitNl (joinNl doc.lines)).any
      (fun line => (parseTaskLine line 0).isSome)

/-! ### StateManager (checkbox mutation) -/

/-- The string literal `"- [ ]"`. -/
def pUnchecked : List Char := ['-', wsp, '[', wsp, ']']

/-- The string literal `"- [x]"`. -/
def pChecked : List Char := ['-', wsp, '[', 'x', ']']

/-- The string literal `"- [-]"`. -/
def pExec : List Char := ['-', wsp, '[', '-', ']']

/-- The string literal `"-[x]"`. -/
def pTightChecked : List Char := ['-', '[', 'x', ']']

/-- Replace line `n` of the document, as `editor.edit` with a single-line
range replace does. -/
def setLineD (doc : Document) (n : Nat) (l : List Char) : Document :=
  { doc with lines := doc.lines.set n l }

/-- `StateManager.markTaskExecuting`: rewrite the first `- [ ]` of the line
to `- [-]`, when the line has one and an active editor shows the document.
Out-of-range line access throws in the host and is caught, yielding
`false`. -/
def markTaskExecuting (doc : Document) (n : Nat) (editorBound : Bool) :
    Document × Bool :=
  match doc.lines.get? n with
  | none => (doc, false)
  | some l =>
    if containsSub l pUnchecked then
      if editorBound then
        (setLineD doc n (replaceFirst l pUnchecked pExec), true)
      else (doc, false)
    else (doc, false)

/-- `StateManager.markTaskIncomplete`: rewrite the first `- [x]` (checked
first) or else the first `- [-]` of the line to `- [ ]`, when an active
editor shows the document. -/
def markTaskIncomplete (doc : Document) (n : Nat) (editorBound : Bool) :
    Document × Bool :=
  match doc.lines.get? n with
  | none => (doc, false)
  | some l =>
    if containsSub l pChecked then
      if editorBound then
        (setLineD doc n (replaceFirst l pChecked pUnchecked), true)
      else (doc, false)
    else if containsSub l pExec then
      if editorBound then
        (setLineD doc n (replaceFirst l pExec pUnchecked), true)
      else (doc, false)
    else (doc, false)

/-! ### ButtonRenderer lifecycle (`src/buttonRenderer.ts`) -/

/-- `ButtonState` of `src/buttonRenderer.ts`. -/
inductive BState where
  | Normal
  | Loading
  | Disabled
  deriving DecidableEq, Repr

/-- The decoration visible on a line after the latest decoration call. -/
inductive Deco where
  | NoneD
  | LoadingD
  | SuccessD
  | ErrorD
  deriving DecidableEq, Repr

/-- One `loadingTasks` entry: the PendingExecution bookkeeping
(`{ lineNumber, documentUri, timeoutId }`). -/
structure Pending where
  lineNumber : Nat
  documentUri : String
  timeoutId : Nat
  deriving DecidableEq, Repr

/-- One armed `setTimeout` handle together with the values its callback
closed over.  A timer leaves this list when it is cleared or fires. -/
structure Timer where
  id : Nat
  uri : String
  line : Nat
  key : String
  deriving DecidableEq, Repr

/-- The mutable state of a `ButtonRenderer`: the active editor's document
(`editor : Bool` says whether an active editor shows it), the
`loadingTasks` map, the armed timers, the per-line button states of the
CodeLens provider, the per-line decorations, and the timer id counter. -/
structure RState where
  doc : Document
  editor : Bool
  loadingTasks : List (String × Pending)
  timers : List Timer
  buttons : List (String × BState)
  deco : List (String × Deco)
  nextTimer : Nat
  deriving DecidableEq, Repr

/-- The `${documentUri}-${lineNumber}` task key. -/
def taskKey (uri : String) (line : Nat) : String :=
  uri ++ "-" ++ toString line

/-- `ButtonRenderer.startTaskExecution`: mark the task executing in the
document, arm a fresh 60-second timeout, overwrite the `loadingTasks`
entry for the key (the source never clears a previously armed timeout
here), set the button to `Loading` and show the loading decoration. -/
def startTaskExecution (line : Nat) (st : RState) : RState :=
  if !st.editor then st
  else
    let uri := st.doc.uri
    let key := taskKey uri line
    let doc1 := (markTaskExecuting st.doc line st.editor).1
    let tid := st.nextTimer
    { st with
      doc := doc1
      timers := st.timers ++ [⟨tid, uri, line, key⟩]
      loadingTasks := setA st.loadingTasks key ⟨line, uri, tid⟩
      buttons := setA st.buttons key BState.Loading
      deco := setA st.deco key Deco.LoadingD
      nextTimer := tid + 1 }

/-- The 60-second timeout callback of `startTaskExecution` running for the
armed timer `tid`: re-open the then-current document, mark the task
incomplete, delete the `loadingTasks` entry for the callback's key, and
refresh the CodeLenses.  A cleared or unknown timer never runs. -/
def fireTimeout (tid : Nat) (st : RState) : RState :=
  match st.timers.find? (fun t => t.id = tid) with
  | none => st
  | some tm =>
    let doc1 := (markTaskIncomplete st.doc tm.line st.editor).1
    { st with
      doc := doc1
      loadingTasks := delA st.loadingTasks tm.key
      timers := st.timers.filter (fun t => !(t.id = tid : Bool)) }

/-- `ButtonRenderer.endTaskExecution`: clear the entry's timeout, drop the
entry, set the button back to `Normal`, clear the loading decoration and
show the success (or error) decoration. -/
def endTaskExecution (line : Nat) (success : Bool) (st : RState) : RState :=
  if !st.editor then st
  else
    let key := taskKey st.doc.uri line
    let st1 :=
      match getA st.loadingTasks key with
      | some info =>
        { st with timers :=
            st.timers.filter (fun t => !(t.id = info.timeoutId : Bool)) }
      | none => st
    { st1 with
      loadingTasks := delA st1.loadingTasks key
      buttons := setA st1.buttons key BState.Normal
      deco := setA st1.deco key
        (if success then Deco.SuccessD else Deco.ErrorD) }

/-- `ButtonRenderer.abortTask`: clear the entry's timeout, rewrite the
checkbox back via `markTaskIncomplete`, drop the entry, set the button to
`Normal` and clear decorations. -/
def abortTask (line : Nat) (st : RState) : RState :=
  if !st.editor then st
  else
    let key := taskKey st.doc.uri line
    let st1 :=
      match getA st.loadingTasks key with
      | some info =>
        { st with timers :=
            st.timers.filter (fun t => !(t.id = info.timeoutId : Bool)) }
      | none => st
    let doc1 := (markTaskIncomplete st1.doc line st1.editor).1
    { st1 with
      doc := doc1
      loadingTasks := delA st1.loadingTasks key
      buttons := setA st1.buttons key BState.Normal
      deco := setA st1.deco key Deco.NoneD }

/-- One entry of `event.contentChanges`. -/
structure ContentChange where
  text : List Char
  startLine : Nat
  endLine : Nat
  deriving DecidableEq, Repr

/-- The done-marker test of `checkForTaskCompletion`:
`includes('- [x]') || includes('-[x]')`. -/
def hasDoneMarker (s : List Char) : Bool :=
  containsSub s pChecked || containsSub s pTightChecked

/-- The inner loop of `checkForTaskCompletion` over the `loadingTasks`
entries (insertion order) for one change: the first entry on the changed
document within two lines of the changed range whose current line text
carries a done marker ends as success, and the loop breaks. -/
def scanPending (evUri : String) (startL endL : Nat) (st : RState) :
    List (String × Pending) → RState
  | [] => st
  | (_, info) :: rest =>
    if info.documentUri = evUri &&
        (startL - 2 ≤ info.lineNumber : Bool) &&
        (info.lineNumber ≤ endL + 2 : Bool) then
      match st.doc.lines.get? info.lineNumber with
      | none => scanPending evUri startL endL st rest
      | some lineText =>
        if hasDoneMarker lineText then endTaskExecution info.lineNumber true st
        else scanPending evUri startL endL st rest
    else scanPending evUri startL endL st rest

/-- Handling of one content change inside `checkForTaskCompletion`. -/
def processChange (evUri : String) (st : RState) (c : ContentChange) : RState :=
  if hasDoneMarker c.text then
    let startL := c.startLine
    let endL := max c.endLine (startL + (splitNl c.text).length - 1)
    scanPending evUri startL endL st st.loadingTasks
  else st

/-- `ButtonRenderer.checkForTaskCompletion` over a document-change event
for the document identified by `evUri` (the current text of that document
is `st.doc`). -/
def checkForTaskCompletion (evUri : String) (changes : List ContentChange)
    (st : RState) : RState :=
  if st.loadingTasks.isEmpty then st
  else changes.foldl (processChange evUri) st

/-! ### Chat integrator (`src/chatIntegrator.ts`) -/

/-- Which host operations resolve rather than reject, and what the user
picks on the awaited notifications.  `cmdOk name` drives
`vscode.commands.executeCommand(name, …)`. -/
structure ChatEnv where
  cmdOk : String → Bool
  clipboardOk : Bool
  copilotChatInstalled : Bool
  copilotChatActive : Bool
  infoMsgOk : Bool
  warnMsgOk : Bool
  infoChoice : Option String
  warnChoice : Option String
  steeringNonempty : Bool

/-- `ChatIntegrator.injectPromptIntoChat`: three methods in turn, each
failure caught; method 3 always reports `false` (clipboard-only). -/
def injectPromptIntoChat (e : ChatEnv) : Bool :=
  if e.clipboardOk && e.cmdOk "workbench.action.chat.focusInput" &&
      e.cmdOk "editor.action.clipboardPasteAction" &&
      e.cmdOk "workbench.action.chat.submit" then true
  else if e.cmdOk "workbench.panel.chat.view.copilot.focus" &&
      e.cmdOk "type" &&
      e.cmdOk "workbench.action.acceptSelectedQuickOpenItem" then true
  else false

/-- `ChatIntegrator.trySendToCopilotChat`: the three Copilot commands in
turn, failures swallowed. -/
def trySendToCopilotChat (e : ChatEnv) : Bool :=
  e.cmdOk "github.copilot.chat.openInEditor" ||
  e.cmdOk "github.copilot.chat.open" ||
  e.cmdOk "github.copilot.chat.sendMessage"

/-- `ChatIntegrator.trySendToVSCodeAgent`: focus the chat panel (a
rejection is caught and reported as `false`), try prompt injection, then
three direct chat commands. -/
def trySendToVSCodeAgent (e : ChatEnv) : Bool :=
  if !e.cmdOk "workbench.panel.chat.view.copilot.focus" then false
  else if injectPromptIntoChat e then true
  else
    e.cmdOk "github.copilot.chat.sendMessage" ||
    e.cmdOk "workbench.action.chat.submit" ||
    e.cmdOk "github.copilot.chat.submit"

/-- `ChatIntegrator.tryOpenChatWithAttachments` (the stable-API branch of
method 3 returns `false`). -/
def tryOpenChatWithAttachments (e : ChatEnv) : Bool :=
  if trySendToVSCodeAgent e then true
  else if e.copilotChatInstalled && e.copilotChatActive &&
      trySendToCopilotChat e then true
  else false

/-- The `try` body of `ChatIntegrator.openChatWithPrompt`; `.error ()`
marks a rejected awaited host call that the body does not catch itself. -/
def openChatBody (e : ChatEnv) : Except Unit Unit :=
  if tryOpenChatWithAttachments e then .ok ()
  else if !e.cmdOk "workbench.panel.chat.view.copilot.focus" then .error ()
  else if injectPromptIntoChat e then .ok ()
  else if !e.clipboardOk then .error ()
  else if !e.infoMsgOk then .error ()
  else
    match e.infoChoice with
    | some choice =>
      if choice = "Open Steering Folder" then
        if e.steeringNonempty then
          if e.cmdOk "revealInExplorer" then .ok () else .error ()
        else .ok ()
      else if choice = "Copy File Paths" then
        if e.clipboardOk then .ok () else .error ()
      else .ok ()
    | none => .ok ()

/-- The `try` body of `ChatIntegrator.fallbackChatIntegration`. -/
def fallbackBody (e : ChatEnv) : Except Unit Unit :=
  if !e.clipboardOk then .error ()
  else if !e.warnMsgOk then .error ()
  else
    match e.warnChoice with
    | some choice =>
      if choice = "Show Files" then
        if e.steeringNonempty then
          if e.cmdOk "revealInExplorer" then .ok () else .error ()
        else .ok ()
      else .ok ()
    | none => .ok ()

/-- `ChatIntegrator.fallbackChatIntegration`: its `catch` only logs, so the
call always resolves. -/
def fallbackChatIntegration (e : ChatEnv) : Except Unit Unit :=
  match fallbackBody e with
  | _ => .ok ()

/-- `ChatIntegrator.openChatWithPrompt`: the `catch` routes every rejection
of the body into `fallbackChatIntegration`. -/
def openChatWithPrompt (e : ChatEnv) : Except Unit Unit :=
  match openChatBody e with
  | .ok _ => .ok ()
  | .error _ => fallbackChatIntegration e

/-- `ChatIntegrator.executeTask`: returns `{ success, message }`; its own
`catch` maps a rejection to `success = false`. -/
def executeTask (e : ChatEnv) : Bool × String :=
  match openChatWithPrompt e with
  | .ok _ => (true, "Task sent to VS Code chat successfully")
  | .error _ => (false, "Failed to open chat")

/-! ### Concrete fixtures for counterexamples and witnesses -/

/-- A one-task markdown document, line 0 `- [ ] a`. -/
def docA : Document := ⟨"u", "markdown", "tasks.md".toList, 1, ["- [ ] a".toList]⟩

/-- A fresh renderer showing `docA`. -/
def stA : RState := ⟨docA, true, [], [], [], [], 0⟩

/-- A document whose only line is the Pending task
`- [ ] a - [x] b` (a second, checked checkbox later in the line). -/
def docMixed : Document :=
  ⟨"u", "markdown", "t.md".toList, 1, ["- [ ] a - [x] b".toList]⟩

/-- A fresh renderer showing `docMixed`. -/
def stMixed : RState := ⟨docMixed, true, [], [], [], [], 0⟩

/-- A document whose only line is the star-bullet completed task
`* [X] d`. -/
def docStarX : Document := ⟨"u", "markdown", "t.md".toList, 2, ["* [X] d".toList]⟩

/-- A renderer showing `docStarX` with one pending execution on line 0
(timer 5 armed, button loading). -/
def stStarX : RState :=
  ⟨docStarX, true, [(taskKey "u" 0, ⟨0, "u", 5⟩)], [⟨5, "u", 0, taskKey "u" 0⟩],
   [(taskKey "u" 0, BState.Loading)], [], 6⟩

/-- A document whose only line is the dash-bullet completed task
`- [x] d`. -/
def docDashX : Document := ⟨"u", "markdown", "t.md".toList, 2, ["- [x] d".toList]⟩

/-- A renderer showing `docDashX` with one pending execution on line 0. -/
def stDashX : RState :=
  ⟨docDashX, true, [(taskKey "u" 0, ⟨0, "u", 5⟩)], [⟨5, "u", 0, taskKey "u" 0⟩],
   [(taskKey "u" 0, BState.Loading)], [], 6⟩

/-- A renderer showing `docA` with one pending execution on line 0 whose
checkbox was marked executing (`- [-] a`), timer 3 armed. -/
def stExec : RState :=
  ⟨⟨"u", "markdown", "tasks.md".toList, 2, ["- [-] a".toList]⟩, true,
   [(taskKey "u" 0, ⟨0, "u", 3⟩)], [⟨3, "u", 0, taskKey "u" 0⟩],
   [(taskKey "u" 0, BState.Loading)], [], 4⟩

/-- A renderer whose pending line 0 already reads `- [x] done` (completed
externally, not detected), timer 3 armed. -/
def stDoneUndetected : RState :=
  ⟨⟨"u", "markdown", "tasks.md".toList, 2, ["- [x] done".toList]⟩, true,
   [(taskKey "u" 0, ⟨0, "u", 3⟩)], [⟨3, "u", 0, taskKey "u" 0⟩],
   [(taskKey "u" 0, BState.Loading)], [], 4⟩

/-- A two-line document for the cache claim. -/
def docCache : Document :=
  ⟨"u", "markdown", "tasks.md".toList, 3, ["- [ ] a".toList, "x".toList]⟩

/-- The markdown document `tasks.md.bak` with no task line: accepted by
`isTasksDocument` through the `includes('tasks.md')` test although its
name does not end in `tasks.md`. -/
def docBak : Document :=
  ⟨"u", "markdown", "tasks.md.bak".toList, 1, ["hello".toList]⟩

/-- A markdown document with one task line and a non-matching name. -/
def docNotes : Document :=
  ⟨"u", "markdown", "notes.md".toList, 1, ["hello".toList, "- [ ] a".toList]⟩

/-- A chat-integrator environment in which every host operation rejects:
every command fails, the clipboard fails, no chat extension is present. -/
def allFail : ChatEnv :=
  ⟨fun _ => false, false, false, false, false, false, none, none, false⟩

/-- The tab-indented task line (tab, then `- [ ] a`). -/
def tabLine : List Char := Char.ofNat 9 :: "- [ ] a".toList

/-! ### String lemmas -/

theorem startsWithL_iff (pat s : List Char) :
    startsWithL pat s = true ↔ ∃ t, s = pat ++ t := by
  induction pat generalizing s with
  | nil => simp [startsWithL]
  | cons p ps ih =>
    cases s with
    | nil => simp [startsWithL]
    | cons c cs =>
      simp only [startsWithL, Bool.and_eq_true, decide_eq_true_eq, ih,
        List.cons_append, List.cons.injEq]
      constructor
      · rintro ⟨rfl, t, rfl⟩
        exact ⟨t, rfl, rfl⟩
      · rintro ⟨t, rfl, rfl⟩
        exact ⟨rfl, t, rfl⟩

theorem startsWithL_self (pat t : List Char) : startsWithL pat (pat ++ t) = true :=
  (startsWithL_iff pat _).mpr ⟨t, rfl⟩

theorem containsSub_of_startsWith {s pat : List Char}
    (h : startsWithL pat s = true) : containsSub s pat = true := by
  cases s with
  | nil => simpa [containsSub] using h
  | cons c cs => simp [containsSub, h]

theorem containsSub_decomp (pre pat post : List Char) :
    containsSub (pre ++ pat ++ post) pat = true := by
  induction pre with
  | nil => exact containsSub_of_startsWith (by simpa using startsWithL_self pat post)
  | cons c cs ih =>
    have : containsSub (cs ++ pat ++ post) pat = true := ih
    simp only [containsSub, List.cons_append, Bool.or_eq_true]
    exact Or.inr (by simpa [List.append_assoc] using this)

theorem containsSub_nil_of_ne {pat : List Char} (h : pat ≠ []) :
    containsSub [] pat = false := by
  cases pat with
  | nil => exact absurd rfl h
  | cons p ps => simp [containsSub, startsWithL]

theorem containsSub_cons {c : Char} {cs pat : List Char}
    (hsw : startsWithL pat (c :: cs) = false)
    (h : containsSub (c :: cs) pat = true) : containsSub cs pat = true := by
  simpa [containsSub, hsw] using h

theorem replaceFirst_first (s pat repl : List Char) (hne : pat ≠ [])
    (h : containsSub s pat = true) :
    ∃ pre post, s = pre ++ pat ++ post ∧
      (∀ pre2 post2, s = pre2 ++ pat ++ post2 → pre.length ≤ pre2.length) ∧
      replaceFirst s pat repl = pre ++ repl ++ post := by
  induction s with
  | nil => rw [containsSub_nil_of_ne hne] at h; exact absurd h (by simp)
  | cons c cs ih =>
    by_cases hsw : startsWithL pat (c :: cs) = true
    · obtain ⟨post, hp⟩ := (startsWithL_iff _ _).mp hsw
      refine ⟨[], post, by simpa using hp, fun _ _ _ => Nat.zero_le _, ?_⟩
      rw [replaceFirst, if_pos hsw, hp]
      simp [List.drop_left]
    · have hsw' : startsWithL pat (c :: cs) = false := by
        simpa using hsw
      obtain ⟨pre, post, hdec, hmin, hrep⟩ := ih (containsSub_cons hsw' h)
      refine ⟨c :: pre, post, by simp [hdec], ?_, ?_⟩
      · intro pre2 post2 heq
        cases pre2 with
        | nil =>
          exfalso
          apply hsw
          rw [(by simpa using heq : c :: cs = pat ++ post2)]
          exact startsWithL_self pat post2
        | cons d pre2' =>
          simp only [List.cons_append, List.cons.injEq] at heq
          simpa using Nat.succ_le_succ (hmin pre2' post2 heq.2)
      · rw [replaceFirst, if_neg (by simp [hsw']), hrep]
        simp

theorem isWhite_elim {c : Char} (h : isWhite c = true) :
    c = Char.ofNat 32 ∨ c = Char.ofNat 9 ∨ c = Char.ofNat 10 ∨
    c = Char.ofNat 13 ∨ c = Char.ofNat 11 ∨ c = Char.ofNat 12 := by
  simpa [isWhite, or_assoc] using h

theorem isWhite_ne_dash {c : Char} (h : isWhite c = true) : c ≠ '-' := by
  rcases isWhite_elim h with rfl | rfl | rfl | rfl | rfl | rfl <;> decide

theorem startsWith_dash_white {c : Char} (h : isWhite c = true)
    (q t : List Char) : startsWithL ('-' :: q) (c :: t) = false := by
  have : ('-' = c) = False := by
    simp [Ne.symm (isWhite_ne_dash h)]
  simp [startsWithL, this]

theorem bullet_not_white {b : Char} (hb : isBullet b = true) :
    isWhite b = false := by
  have : b = '-' ∨ b = '*' ∨ b = '+' := by simpa [isBullet, or_assoc] using hb
  rcases this with rfl | rfl | rfl <;> decide

theorem takeWhile_white (ws : List Char) (h : ∀ c ∈ ws, isWhite c = true)
    {b : Char} (hb : isWhite b = false) (t : List Char) :
    (ws ++ b :: t).takeWhile isWhite = ws ∧
    (ws ++ b :: t).dropWhile isWhite = b :: t := by
  induction ws with
  | nil => simp [List.takeWhile_cons, List.dropWhile_cons, hb]
  | cons c cs ih =>
    have hc : isWhite c = true := h c (List.mem_cons_self c cs)
    have := ih (fun d hd => h d (List.mem_cons_of_mem c hd))
    simp [List.takeWhile_cons, List.dropWhile_cons, hc, this.1, this.2]

theorem replaceFirst_ws (ws q r repl : List Char)
    (h : ∀ c ∈ ws, isWhite c = true) :
    replaceFirst (ws ++ ('-' :: q) ++ r) ('-' :: q) repl = ws ++ repl ++ r := by
  induction ws with
  | nil =>
    simp only [List.nil_append]
    rw [show ('-' :: q) ++ r = '-' :: (q ++ r) by simp, replaceFirst]
    rw [if_pos (by simpa using startsWithL_self ('-' :: q) r)]
    simp [List.drop_left]
  | cons c cs ih =>
    have hc : isWhite c = true := h c (List.mem_cons_self c cs)
    have ih' := ih (fun d hd => h d (List.mem_cons_of_mem c hd))
    simp only [List.cons_append, replaceFirst]
    rw [if_neg (by simp [startsWith_dash_white hc])]
    simp only [List.append_eq, List.append_assoc, List.cons_append] at ih' ⊢
    rw [ih']

theorem containsSub_exec_checked (rest : List Char)
    (hr : containsSub rest pChecked = false) :
    containsSub (pExec ++ rest) pChecked = false := by
  have hr' : containsSub rest ['-', Char.ofNat 32, '[', 'x', ']'] = false := by
    simpa [pChecked, wsp] using hr
  simp only [pExec, pChecked, wsp, List.cons_append, List.nil_append]
  simp [containsSub, startsWithL, hr']

theorem containsSub_ws_exec_checked (ws rest : List Char)
    (h : ∀ c ∈ ws, isWhite c = true) (hr : containsSub rest pChecked = false) :
    containsSub (ws ++ pExec ++ rest) pChecked = false := by
  induction ws with
  | nil => simpa using containsSub_exec_checked rest hr
  | cons c cs ih =>
    have hc : isWhite c = true := h c (List.mem_cons_self c cs)
    have ih' := ih (fun d hd => h d (List.mem_cons_of_mem c hd))
    simp only [List.cons_append, containsSub, Bool.or_eq_false_iff]
    refine ⟨?_, by simpa [List.append_assoc] using ih'⟩
    have : pChecked = '-' :: [wsp, '[', 'x', ']'] := by simp [pChecked]
    rw [this]
    exact startsWith_dash_white hc _ _

/-! ### splitNl / joinNl lemmas -/

theorem splitNl_no_nl (l : List Char) (h : chNl ∉ l) : splitNl l = [l] := by
  induction l with
  | nil => rfl
  | cons c cs ih =>
    have hc : ¬(c = chNl) := fun hcc => h (hcc ▸ List.mem_cons_self c cs)
    have ih' := ih (fun hm => h (List.mem_cons_of_mem c hm))
    simp [splitNl, hc, ih']

theorem splitNl_append_nl (l t : List Char) (h : chNl ∉ l) :
    splitNl (l ++ chNl :: t) = l :: splitNl t := by
  induction l with
  | nil => simp [splitNl]
  | cons c cs ih =>
    have hc : ¬(c = chNl) := fun hcc => h (hcc ▸ List.mem_cons_self c cs)
    have ih' := ih (fun hm => h (List.mem_cons_of_mem c hm))
    simp [splitNl, hc, ih']

theorem splitNl_joinNl (ls : List (List Char)) (h0 : ls ≠ [])
    (h : ∀ l ∈ ls, chNl ∉ l) : splitNl (joinNl ls) = ls := by
  induction ls with
  | nil => exact absurd rfl h0
  | cons l ls' ih =>
    cases ls' with
    | nil => exact splitNl_no_nl l (h l (List.mem_cons_self l []))
    | cons l2 ls'' =>
      rw [show joinNl (l :: l2 :: ls'') = l ++ chNl :: joinNl (l2 :: ls'') from rfl]
      rw [splitNl_append_nl l _ (h l (List.mem_cons_self l _))]
      rw [ih (by simp) (fun d hd => h d (List.mem_cons_of_mem l hd))]

/-! ### Association list lemmas -/

theorem getA_setA_self {α : Type} (m : List (String × α)) (k : String) (v : α) :
    getA (setA m k v) k = some v := by
  induction m with
  | nil => simp [getA, setA]
  | cons p ps ih =>
    by_cases h : p.1 = k
    · simp [getA, setA, h]
    · simp [getA, setA, h, ih]

theorem getA_delA_self {α : Type} (m : List (String × α)) (k : String) :
    getA (delA m k) k = none := by
  induction m with
  | nil => simp [getA, delA]
  | cons p ps ih =>
    by_cases h : p.1 = k
    · simp [delA, h, ih]
    · simp [getA, delA, h, ih]

theorem mem_keys_setA {α : Type} {m : List (String × α)} {k a : String} {v : α}
    (h : a ∈ (setA m k v).map Prod.fst) : a ∈ m.map Prod.fst ∨ a = k := by
  induction m with
  | nil => simpa [setA] using h
  | cons p ps ih =>
    by_cases hp : p.1 = k
    · simp only [setA, if_pos hp, List.map_cons, List.mem_cons] at h
      rcases h with rfl | h
      · exact Or.inr rfl
      · exact Or.inl (by rw [List.map_cons]; exact List.mem_cons_of_mem _ h)
    · simp only [setA, if_neg hp, List.map_cons, List.mem_cons] at h
      rcases h with rfl | h
      · exact Or.inl (by rw [List.map_cons]; exact List.mem_cons_self _ _)
      · rcases ih h with h' | h'
        · exact Or.inl (by rw [List.map_cons]; exact List.mem_cons_of_mem _ h')
        · exact Or.inr h'

theorem nodup_keys_setA {α : Type} {m : List (String × α)} (k : String) (v : α)
    (h : (m.map Prod.fst).Nodup) : ((setA m k v).map Prod.fst).Nodup := by
  induction m with
  | nil => simp [setA]
  | cons p ps ih =>
    simp only [List.map_cons, List.nodup_cons] at h
    by_cases hp : p.1 = k
    · simp only [setA, if_pos hp, List.map_cons, List.nodup_cons]
      exact ⟨by rw [← hp]; exact h.1, h.2⟩
    · simp only [setA, if_neg hp, List.map_cons, List.nodup_cons]
      refine ⟨fun hm => ?_, ih h.2⟩
      rcases mem_keys_setA hm with h' | h'
      · exact h.1 h'
      · exact hp h'

/-! ### List.set lemmas -/

theorem set_get?_self {α : Type} (l : List α) (n : Nat) (a : α)
    (h : l.get? n = some a) : l.set n a = l := by
  induction l generalizing n with
  | nil => exact Option.noConfusion h
  | cons x xs ih =>
    cases n with
    | zero =>
      have h1 : x = a := Option.some.inj h
      show a :: xs = x :: xs
      rw [h1]
    | succ n' =>
      show x :: xs.set n' a = x :: xs
      rw [ih n' h]

theorem get?_set_self {α : Type} (l : List α) (n : Nat) (a b : α)
    (h : l.get? n = some b) : (l.set n a).get? n = some a := by
  induction l generalizing n with
  | nil => exact Option.noConfusion h
  | cons x xs ih =>
    cases n with
    | zero => rfl
    | succ n' =>
      show (xs.set n' a).get? n' = some a
      exact ih n' h

/-! ### Grammar lemmas -/

theorem parseTaskLine_decomp (ws ws2 rest : List Char) (b m : Char) (n : Nat)
    (hws : ∀ c ∈ ws, isWhite c = true) (hb : isBullet b = true)
    (hws2 : ∀ c ∈ ws2, isWhite c = true) (hm : isMarker m = true)
    (hrest : rest ≠ []) :
    parseTaskLine (ws ++ b :: (ws2 ++ '[' :: m :: ']' :: rest)) n =
      some { lineNumber := n
             taskText := trimL rest
             isCompleted := m.toLower = 'x'
             isExecuting := m = '-'
             indentationLevel := ws.length } := by
  have hbw : isWhite b = false := bullet_not_white hb
  have h1 := takeWhile_white ws hws hbw (ws2 ++ '[' :: m :: ']' :: rest)
  have h2 := takeWhile_white ws2 hws2 (show isWhite '[' = false by decide)
    (m :: ']' :: rest)
  simp only [parseTaskLine, h1.1, h1.2]
  simp only [hb, if_true]
  rw [show (ws2 ++ '[' :: m :: ']' :: rest).dropWhile isWhite =
    '[' :: m :: ']' :: rest from h2.2]
  simp [hm, hrest]

theorem parseTaskLine_codeMatch {s : List Char} {n : Nat}
    (h : (parseTaskLine s n).isSome = true) : CodeMatch s := by
  simp only [parseTaskLine] at h
  split at h
  case h_2 => simp at h
  case h_1 b r1 hd =>
    split at h
    case isFalse => simp at h
    case isTrue hb =>
      split at h
      case h_2 => simp at h
      case h_1 lb m rb rest hd2 =>
        split at h
        case isFalse => simp at h
        case isTrue hg =>
          have hlb : lb = '[' := by
            simp only [Bool.and_eq_true, decide_eq_true_eq] at hg
            exact hg.1.1.1
          have hrb : rb = ']' := by
            simp only [Bool.and_eq_true, decide_eq_true_eq] at hg
            exact hg.1.1.2
          have hm : isMarker m = true := by
            simp only [Bool.and_eq_true] at hg
            exact hg.1.2
          have hrest : rest ≠ [] := by
            simp only [Bool.and_eq_true] at hg
            have h2 := hg.2
            cases rest with
            | nil => simp at h2
            | cons a t => exact fun hc => List.noConfusion hc
          have e2 : r1 = r1.takeWhile isWhite ++ '[' :: m :: ']' :: rest := by
            conv_lhs => rw [← List.takeWhile_append_dropWhile (p := isWhite)
              (l := r1)]
            rw [hd2, hlb, hrb]
          have e1 : s = s.takeWhile isWhite ++ b :: r1 := by
            conv_lhs => rw [← List.takeWhile_append_dropWhile (p := isWhite)
              (l := s)]
            rw [hd]
          refine ⟨s.takeWhile isWhite, b, r1.takeWhile isWhite, m, rest,
            ?_, ?_, hb, ?_, hm, hrest⟩
          · have key : s = s.takeWhile isWhite ++
                b :: (r1.takeWhile isWhite ++ '[' :: m :: ']' :: rest) := by
              conv_lhs => rw [e1]
              conv_lhs => rw [e2]
            simpa [List.append_assoc, List.cons_append] using key
          · intro c hc
            exact List.mem_takeWhile_imp hc
          · intro c hc
            exact List.mem_takeWhile_imp hc

theorem marker_cases {m : Char} (hm : isMarker m = true) :
    m = wsp ∨ m = 'x' ∨ m = 'X' ∨ m = '-' := by
  simpa [isMarker, wsp, or_assoc] using hm

/-! ### scanLines lemmas -/

theorem parseTaskLine_lineNumber {l : List Char} {n : Nat} {t : TaskItem}
    (h : parseTaskLine l n = some t) : t.lineNumber = n := by
  simp only [parseTaskLine] at h
  split at h
  · split at h
    · split at h
      · split at h
        · cases Option.some.inj h; rfl
        · exact Option.noConfusion h
      · exact Option.noConfusion h
    · exact Option.noConfusion h
  · exact Option.noConfusion h

theorem scanLines_ge (i : Nat) (ls : List (List Char)) :
    ∀ t ∈ scanLines i ls, i ≤ t.lineNumber := by
  induction ls generalizing i with
  | nil => intro t ht; simp [scanLines] at ht
  | cons l ls' ih =>
    intro t ht
    unfold scanLines at ht
    cases hp : parseTaskLine l i with
    | none =>
      rw [hp] at ht
      exact Nat.le_of_succ_le (ih (i + 1) t ht)
    | some t0 =>
      rw [hp] at ht
      rcases List.mem_cons.mp ht with rfl | ht'
      · rw [parseTaskLine_lineNumber hp]
      · exact Nat.le_of_succ_le (ih (i + 1) t ht')

theorem scanLines_sorted (i : Nat) (ls : List (List Char)) :
    List.Pairwise (fun a b => a.lineNumber < b.lineNumber) (scanLines i ls) := by
  induction ls generalizing i with
  | nil => simp [scanLines]
  | cons l ls' ih =>
    unfold scanLines
    cases hp : parseTaskLine l i with
    | none => exact ih (i + 1)
    | some t0 =>
      refine List.Pairwise.cons ?_ (ih (i + 1))
      intro b hb
      rw [parseTaskLine_lineNumber hp]
      exact Nat.lt_of_succ_le (scanLines_ge (i + 1) ls' b hb)

/-! ### Miscellaneous helpers -/

theorem containsSub_of_endsWith {s pat : List Char}
    (h : endsWithL s pat = true) : containsSub s pat = true := by
  unfold endsWithL at h
  obtain ⟨t, ht⟩ := (startsWithL_iff _ _).mp h
  have hs : s = t.reverse ++ pat := by
    have := congrArg List.reverse ht
    simpa [List.reverse_append] using this
  rw [hs]
  simpa using containsSub_decomp t.reverse pat []

theorem openChatWithPrompt_ok (e : ChatEnv) : openChatWithPrompt e = .ok () := by
  unfold openChatWithPrompt fallbackChatIntegration
  cases openChatBody e with
  | ok u => rfl
  | error u => cases fallbackBody e <;> rfl

/-! ## Claim theorems -/

/-- Claim C3, counterexample: the line `-[x] a` does not match the spec's
pattern `<ws>*[-*+] \[[ xX-]\].*` (no space between the bullet and the
bracket), yet `parseTaskLine` accepts it — the regexes use `\s*`, not a
mandatory single space, between bullet and bracket. -/
theorem C3_counterexample :
    specGrammar ("-[x] a".toList) = false ∧
    (parseTaskLine ("-[x] a".toList) 0).isSome = true := by
  constructor
  · decide
  · decide

/-- Claim C3, amended: every line accepted by `parseTaskLine` matches the
grammar the code actually implements — optional leading whitespace, a
bullet (`-`, `*`, `+`), ANY run of whitespace (not exactly one space),
`[`, one of space/x/X/`-`, `]`, and at least one further character.
Contrapositively, any string outside this shape parses to `none`. -/
theorem C3_theorem (s : List Char) (n : Nat)
    (h : (parseTaskLine s n).isSome = true) : CodeMatch s :=
  parseTaskLine_codeMatch h

/-- Claim C3, witness: `- [ ] a` is accepted and indeed has the code's
shape. -/
theorem C3_witness :
    (parseTaskLine ("- [ ] a".toList) 0).isSome = true ∧
    CodeMatch ("- [ ] a".toList) :=
  ⟨by decide, C3_theorem ("- [ ] a".toList) 0 (by decide)⟩

/-- Claim C5, counterexample: a tab-indented task line is recognized with
`indentationLevel = 1` (the regex counts every `\s` character), while the
count of leading SPACE characters is `0` — the claim's "exact count of
leading space characters" fails on tab indentation. -/
theorem C5_counterexample :
    parseTaskLine tabLine 0 =
      some { lineNumber := 0, taskText := ['a'], isCompleted := false,
             isExecuting := false, indentationLevel := 1 } ∧
    (tabLine.takeWhile (fun c => c = wsp)).length = 0 := by
  constructor
  · decide
  · decide

/-- Claim C5, amended: for every recognized line (any bullet, any marker),
the produced `TaskItem` is exactly: `isCompleted` iff the marker is `x` or
`X`, `isExecuting` iff it is `-` (so Pending iff it is a space), the task
text is the trimmed remainder, and `indentationLevel` is the number of
leading WHITESPACE characters (tabs included) before the bullet. -/
theorem C5_theorem (ws ws2 rest : List Char) (b m : Char) (n : Nat)
    (hws : ∀ c ∈ ws, isWhite c = true) (hb : isBullet b = true)
    (hws2 : ∀ c ∈ ws2, isWhite c = true) (hm : isMarker m = true)
    (hrest : rest ≠ []) :
    parseTaskLine (ws ++ b :: (ws2 ++ '[' :: m :: ']' :: rest)) n =
      some { lineNumber := n
             taskText := trimL rest
             isCompleted := (m = 'x' || m = 'X')
             isExecuting := (m = '-')
             indentationLevel := ws.length } := by
  have hc : (decide (m.toLower = 'x')) = (decide (m = 'x') || decide (m = 'X')) := by
    rcases marker_cases hm with rfl | rfl | rfl | rfl <;> decide
  rw [parseTaskLine_decomp ws ws2 rest b m n hws hb hws2 hm hrest]
  rw [show (decide (m.toLower = 'x') : Bool) = (decide (m = 'x') || decide (m = 'X')) from hc]

/-- Claim C5, witness: the line `  * [X] d` (two spaces, star bullet,
marker `X`). -/
theorem C5_witness :
    parseTaskLine ([wsp, wsp] ++ '*' :: ([wsp] ++ '[' :: 'X' :: ']' :: [wsp, 'd'])) 0 =
      some { lineNumber := 0
             taskText := trimL [wsp, 'd']
             isCompleted := ('X' = 'x' || 'X' = 'X')
             isExecuting := ('X' = '-')
             indentationLevel := [wsp, wsp].length } :=
  C5_theorem [wsp, wsp] [wsp] [wsp, 'd'] '*' 'X' 0
    (by decide) (by decide) (by decide) (by decide) (by decide)

/-- Claim C9, counterexample: in the environment where every host
operation rejects — every command, the clipboard, every notification —
both the chat-opening body and the fallback body reject internally, yet
`executeTask` still reports `success = true`; the claim's "false exactly
when every delivery mechanism in the fallback chain, including the
clipboard fallback, fails" is violated. -/
theorem C9_counterexample :
    allFail.clipboardOk = false ∧
    injectPromptIntoChat allFail = false ∧
    tryOpenChatWithAttachments allFail = false ∧
    openChatBody allFail = Except.error () ∧
    fallbackBody allFail = Except.error () ∧
    executeTask allFail = (true, "Task sent to VS Code chat successfully") := by
  refine ⟨by decide, by decide, by decide, rfl, rfl, by decide⟩

/-- Claim C9, amended: `executeTask` never throws and always returns
`success = true`, in every environment: every failure inside the dispatch
chain — including the clipboard fallback itself failing — is caught
internally (`openChatWithPrompt`'s catch routes to
`fallbackChatIntegration`, whose catch only logs), so the boolean can
never be `false`. -/
theorem C9_theorem (e : ChatEnv) :
    executeTask e = (true, "Task sent to VS Code chat successfully") := by
  unfold executeTask
  rw [openChatWithPrompt_ok]

/-- Claim C1, counterexample: starting twice on line 0 of `docA` leaves a
single `loadingTasks` entry (keyed `u-0`, now holding timer 1) but BOTH
timers 0 and 1 armed — `startTaskExecution` contains no `clearTimeout`.
When the superseded timer 0 later fires, its callback deletes the new
entry, so the claim's "the superseded timeout callback never fires
afterwards" is false. -/
theorem C1_counterexample :
    (startTaskExecution 0 (startTaskExecution 0 stA)).loadingTasks =
      [(taskKey "u" 0, ⟨0, "u", 1⟩)] ∧
    (startTaskExecution 0 (startTaskExecution 0 stA)).timers.map Timer.id =
      [0, 1] ∧
    (fireTimeout 0
      (startTaskExecution 0 (startTaskExecution 0 stA))).loadingTasks = [] := by
  refine ⟨by decide, by decide, by decide⟩

/-- Claim C1, amended: at most one PendingExecution per (document, line)
does hold — `Map.set` overwrites the entry in place, preserving key
uniqueness — but Start does NOT cancel the pre-existing entry's timeout:
every timer armed before the call is still armed afterwards, so the
superseded callback can still fire. -/
theorem C1_theorem (st : RState) (line : Nat)
    (h : (st.loadingTasks.map Prod.fst).Nodup) :
    ((startTaskExecution line st).loadingTasks.map Prod.fst).Nodup ∧
    ∀ t ∈ st.timers, t ∈ (startTaskExecution line st).timers := by
  unfold startTaskExecution
  by_cases he : st.editor
  · simp only [he, Bool.not_true, Bool.false_eq_true, if_false]
    exact ⟨nodup_keys_setA _ _ h, fun t ht => List.mem_append_left _ ht⟩
  · have he' : st.editor = false := by simpa using he
    simp only [he', Bool.not_false, if_true]
    exact ⟨h, fun t ht => ht⟩

/-- Claim C1, witness: the amended statement at the one-entry state
`stStarX`. -/
theorem C1_witness :
    ((startTaskExecution 0 stStarX).loadingTasks.map Prod.fst).Nodup ∧
    ∀ t ∈ stStarX.timers, t ∈ (startTaskExecution 0 stStarX).timers :=
  C1_theorem stStarX 0 (by decide)

/-- Claim C4: when the 60-second timeout fires for an armed timer whose
line (in the then-current document) carries the executing marker `- [-]`
and no checked marker `- [x]`, the callback reverts that line's first
`- [-]` to `- [ ]`, deletes the PendingExecution entry for the callback's
key, and disarms the timer.  (`markTaskIncomplete` recognizes only the
dash-bullet form, the only form `markTaskExecuting` itself writes; the
refresh of affordances is an event emission with no further state.) -/
theorem C4_theorem (st : RState) (tid : Nat) (tm : Timer) (l : List Char)
    (hfind : st.timers.find? (fun t => t.id = tid) = some tm)
    (he : st.editor = true)
    (hline : st.doc.lines.get? tm.line = some l)
    (hx : containsSub l pChecked = false)
    (hexec : containsSub l pExec = true) :
    ∃ pre post, l = pre ++ pExec ++ post ∧
      (∀ pre2 post2, l = pre2 ++ pExec ++ post2 → pre.length ≤ pre2.length) ∧
      (fireTimeout tid st).doc =
        setLineD st.doc tm.line (pre ++ pUnchecked ++ post) ∧
      getA (fireTimeout tid st).loadingTasks tm.key = none ∧
      ∀ t ∈ (fireTimeout tid st).timers, t.id ≠ tid := by
  obtain ⟨pre, post, hdec, hmin, hrep⟩ :=
    replaceFirst_first l pExec pUnchecked (by decide) hexec
  refine ⟨pre, post, hdec, hmin, ?_, ?_, ?_⟩
  · simp only [fireTimeout, hfind, markTaskIncomplete, hline, hx, hexec, he,
      Bool.false_eq_true, if_false, if_true, hrep]
  · simp only [fireTimeout, hfind]
    exact getA_delA_self _ _
  · simp only [fireTimeout, hfind]
    intro t ht
    simp only [List.mem_filter, Bool.not_eq_true'] at ht
    simpa using ht.2

/-- Claim C4, witness: the executing one-line document `- [-] a` with
timer 3 armed. -/
theorem C4_witness :
    ∃ pre post, "- [-] a".toList = pre ++ pExec ++ post ∧
      (∀ pre2 post2, "- [-] a".toList = pre2 ++ pExec ++ post2 →
        pre.length ≤ pre2.length) ∧
      (fireTimeout 3 stExec).doc =
        setLineD stExec.doc 0 (pre ++ pUnchecked ++ post) ∧
      getA (fireTimeout 3 stExec).loadingTasks (taskKey "u" 0) = none ∧
      ∀ t ∈ (fireTimeout 3 stExec).timers, t.id ≠ 3 :=
  C4_theorem stExec 3 ⟨3, "u", 0, taskKey "u" 0⟩ ("- [-] a".toList)
    (by decide) (by decide) (by decide) (by decide) (by decide)

/-- Claim C10: (a) `markTaskIncomplete`, on a line containing `- [x]` and
with an active editor bound, rewrites that line's FIRST `- [x]` occurrence
to `- [ ]` and returns `true`; (b) consequently, when the timeout fires on
a pending line whose checkbox already reads `- [x]` (completed externally
without detection), the callback un-completes it, reverting the done
marker to the pending form, and deletes the PendingExecution entry. -/
theorem C10_theorem :
    (∀ (doc : Document) (n : Nat) (l : List Char),
      doc.lines.get? n = some l → containsSub l pChecked = true →
      ∃ pre post, l = pre ++ pChecked ++ post ∧
        (∀ pre2 post2, l = pre2 ++ pChecked ++ post2 →
          pre.length ≤ pre2.length) ∧
        markTaskIncomplete doc n true =
          (setLineD doc n (pre ++ pUnchecked ++ post), true)) ∧
    (∀ (st : RState) (tid : Nat) (tm : Timer) (l : List Char),
      st.editor = true →
      st.timers.find? (fun t => t.id = tid) = some tm →
      st.doc.lines.get? tm.line = some l →
      containsSub l pChecked = true →
      ∃ pre post, l = pre ++ pChecked ++ post ∧
        (fireTimeout tid st).doc =
          setLineD st.doc tm.line (pre ++ pUnchecked ++ post) ∧
        getA (fireTimeout tid st).loadingTasks tm.key = none) := by
  constructor
  · intro doc n l hline hx
    obtain ⟨pre, post, hdec, hmin, hrep⟩ :=
      replaceFirst_first l pChecked pUnchecked (by decide) hx
    refine ⟨pre, post, hdec, hmin, ?_⟩
    simp only [markTaskIncomplete, hline, hx, if_true, hrep]
  · intro st tid tm l he hfind hline hx
    obtain ⟨pre, post, hdec, hmin, hrep⟩ :=
      replaceFirst_first l pChecked pUnchecked (by decide) hx
    refine ⟨pre, post, hdec, ?_, ?_⟩
    · simp only [fireTimeout, hfind, markTaskIncomplete, hline, hx, he,
        if_true, hrep]
    · simp only [fireTimeout, hfind]
      exact getA_delA_self _ _

/-- Claim C10, witness: part (a) on the line `- [x] d` of `docDashX`;
part (b) on `stDoneUndetected`, whose pending line already reads
`- [x] done`. -/
theorem C10_witness :
    (∃ pre post, "- [x] d".toList = pre ++ pChecked ++ post ∧
      (∀ pre2 post2, "- [x] d".toList = pre2 ++ pChecked ++ post2 →
        pre.length ≤ pre2.length) ∧
      markTaskIncomplete docDashX 0 true =
        (setLineD docDashX 0 (pre ++ pUnchecked ++ post), true)) ∧
    (∃ pre post, "- [x] done".toList = pre ++ pChecked ++ post ∧
      (fireTimeout 3 stDoneUndetected).doc =
        setLineD stDoneUndetected.doc 0 (pre ++ pUnchecked ++ post) ∧
      getA (fireTimeout 3 stDoneUndetected).loadingTasks (taskKey "u" 0) =
        none) :=
  ⟨C10_theorem.1 docDashX 0 ("- [x] d".toList) (by decide) (by decide),
   C10_theorem.2 stDoneUndetected 3 ⟨3, "u", 0, taskKey "u" 0⟩
     ("- [x] done".toList) (by decide) (by decide) (by decide) (by decide)⟩

/-- Claim C7, counterexample: the markdown document named `tasks.md.bak`
has no line matching the grammar and its name does not END with
`tasks.md`, yet `isTasksDocument` accepts it — the source tests
`fileName.includes('tasks.md')`, not only `endsWith`. -/
theorem C7_counterexample :
    isTasksDocument docBak = true ∧
    docBak.languageId = "markdown" ∧
    endsWithL (lowerL docBak.fileName) tasksMdPat = false ∧
    docBak.lines.all (fun l => (parseTaskLine l 0).isNone) = true := by
  refine ⟨by decide, rfl, by decide, by decide⟩

/-- Claim C7, amended: `isTasksDocument` returns true iff the declared
language is markdown AND (the lowercased filename CONTAINS `tasks.md`
anywhere — `includes`, which subsumes the source's redundant `endsWith`
check — OR some line matches the task grammar).  The two hypotheses are
the host editor's invariants: a document has at least one line, and no
line contains a newline. -/
theorem C7_theorem (doc : Document) (h0 : doc.lines ≠ [])
    (hnl : ∀ l ∈ doc.lines, chNl ∉ l) :
    isTasksDocument doc = true ↔
      (doc.languageId = "markdown" ∧
       (containsSub (lowerL doc.fileName) tasksMdPat = true ∨
        ∃ l ∈ doc.lines, (parseTaskLine l 0).isSome = true)) := by
  unfold isTasksDocument
  rw [splitNl_joinNl doc.lines h0 hnl]
  by_cases hl : doc.languageId = "markdown"
  · cases hc : containsSub (lowerL doc.fileName) tasksMdPat with
    | true => simp [hl, hc]
    | false =>
      cases hew : endsWithL (lowerL doc.fileName) tasksMdPat with
      | true =>
        have := containsSub_of_endsWith hew
        rw [hc] at this
        exact absurd this (by simp)
      | false =>
        simp [hl, hc, hew, List.any_eq_true]
  · simp [hl]

/-- Claim C7, witness: the characterization at `docNotes` (markdown,
non-matching name, one task line). -/
theorem C7_witness :
    isTasksDocument docNotes = true ↔
      (docNotes.languageId = "markdown" ∧
       (containsSub (lowerL docNotes.fileName) tasksMdPat = true ∨
        ∃ l ∈ docNotes.lines, (parseTaskLine l 0).isSome = true)) :=
  C7_theorem docNotes (by decide) (by decide)

theorem isCacheValid_version {c : CachedParseResult} {v t : Nat}
    (h : isCacheValid c v t = true) : c.version = v := by
  simp only [isCacheValid, Bool.and_eq_true, decide_eq_true_eq] at h
  exact h.1

theorem parseDocument_entry (t : Nat) (doc : Document) (st : ParserState) :
    ∃ e, getA (parseDocument t doc st).2.1.parseCache doc.uri = some e ∧
      e.tasks = (parseDocument t doc st).1 ∧ e.version = doc.version := by
  unfold parseDocument
  cases hget : getA st.parseCache doc.uri with
  | none =>
    simp only [hget]
    exact ⟨_, getA_setA_self _ _ _, rfl, rfl⟩
  | some c =>
    by_cases hv : isCacheValid c doc.version t = true
    · simp only [hget, hv, if_true]
      exact ⟨c, rfl, rfl, isCacheValid_version hv⟩
    · have hv' : isCacheValid c doc.version t = false := by simpa using hv
      simp only [hget, hv', Bool.false_eq_true, if_false]
      exact ⟨_, getA_setA_self _ _ _, rfl, rfl⟩

/-- Claim C6: (hit) after any `parseDocument` call, a second call on the
same document with unchanged revision whose cached entry has not passed
the 10-minute TTL returns the same list, leaves the state untouched, and
does not re-scan (`false` flag); (miss) with no valid entry — revision
changed or entry expired — every line is re-scanned through the grammar,
the result is stored as a fresh entry stamped with the current revision
and time, and the returned list is strictly ascending in `lineNumber`.
In the source both the stored entry and the hit-path return are spread
copies, which value semantics renders as plain equality here. -/
theorem C6_theorem :
    (∀ (st0 st1 : ParserState) (doc : Document) (t1 t2 : Nat)
       (l1 : List TaskItem) (b1 : Bool) (e : CachedParseResult),
       parseDocument t1 doc st0 = (l1, st1, b1) →
       getA st1.parseCache doc.uri = some e →
       t2 - e.lastModified ≤ MAX_CACHE_AGE →
       parseDocument t2 doc st1 = (l1, st1, false)) ∧
    (∀ (st : ParserState) (doc : Document) (t : Nat),
       (∀ c, getA st.parseCache doc.uri = some c →
         isCacheValid c doc.version t = false) →
       parseDocument t doc st =
         (performParsing doc,
          ⟨setA st.parseCache doc.uri
             ⟨performParsing doc, doc.version, t, doc.uri⟩,
           setA st.documentVersions doc.uri ⟨doc.version, t⟩⟩,
          true) ∧
       List.Pairwise (fun a b => a.lineNumber < b.lineNumber)
         (performParsing doc)) := by
  constructor
  · intro st0 st1 doc t1 t2 l1 b1 e h1 h2 h3
    obtain ⟨e', he', ht', hv'⟩ := parseDocument_entry t1 doc st0
    rw [h1] at he' ht'
    have hee : e' = e := by
      rw [he'] at h2
      exact Option.some.inj h2
    subst hee
    have hval : isCacheValid e' doc.version t2 = true := by
      simp only [isCacheValid, Bool.and_eq_true, decide_eq_true_eq]
      refine ⟨hv', ?_⟩
      simp only [Bool.not_eq_true', decide_eq_false_iff_not]
      exact Nat.not_lt.mpr h3
    simp only [parseDocument, h2, hval, if_true]
    rw [ht']
  · intro st doc t h
    constructor
    · cases hget : getA st.parseCache doc.uri with
      | none => simp only [parseDocument, hget]
      | some c =>
        have hv := h c hget
        simp only [parseDocument, hget, hv, Bool.false_eq_true, if_false]
    · exact scanLines_sorted 0 doc.lines

/-- Claim C6, witness: the two-line document `docCache` — a hit at time 5
after a first call at time 0, and a fresh miss at time 7. -/
theorem C6_witness :
    parseDocument 5 docCache (parseDocument 0 docCache pEmpty).2.1 =
      ((parseDocument 0 docCache pEmpty).1,
       (parseDocument 0 docCache pEmpty).2.1, false) ∧
    (parseDocument 7 docCache pEmpty =
      (performParsing docCache,
       ⟨setA pEmpty.parseCache docCache.uri
          ⟨performParsing docCache, docCache.version, 7, docCache.uri⟩,
        setA pEmpty.documentVersions docCache.uri ⟨docCache.version, 7⟩⟩,
       true) ∧
     List.Pairwise (fun a b => a.lineNumber < b.lineNumber)
       (performParsing docCache)) := by
  constructor
  · exact C6_theorem.1 pEmpty (parseDocument 0 docCache pEmpty).2.1 docCache 0 5
      (parseDocument 0 docCache pEmpty).1 (parseDocument 0 docCache pEmpty).2.2
      ⟨performParsing docCache, docCache.version, 0, docCache.uri⟩
      rfl (by decide) (by decide)
  · exact C6_theorem.2 pEmpty docCache 7 (fun c hc => Option.noConfusion hc)

/-- Claim C2, counterexample: the pending line 0 of `stStarX` now reads
`* [X] d` — a Done task under the grammar (marker `X`, star bullet) — and
the change event carries exactly that text, yet `checkForTaskCompletion`
changes nothing: the entry survives and the button stays `Loading`,
because the detector only looks for the lowercase dash-bullet strings
`- [x]` and `-[x]`. -/
theorem C2_counterexample :
    Option.map TaskItem.isCompleted (parseTaskLine ("* [X] d".toList) 0) =
      some true ∧
    stStarX.loadingTasks = [(taskKey "u" 0, ⟨0, "u", 5⟩)] ∧
    checkForTaskCompletion "u" [⟨"* [X] d".toList, 0, 0⟩] stStarX =
      stStarX := by
  refine ⟨by decide, by decide, by decide⟩

/-- Claim C2, amended: completion detection fires only for the lowercase
dash-bullet markers `- [x]`/`-[x]`: when a change on the tracked document
contains such a marker, the pending line lies within two lines of the
changed range, and re-reading that line confirms it contains such a
marker, then the execution ends as success — entry removed, timeout
cleared, ButtonState `Normal`, success decoration — without waiting for
the timeout.  Markers `X` or with `*`/`+` bullets are not detected, at
most one pending execution is ended per change (the loop breaks), and
lines farther than two lines from the change are not re-read. -/
theorem C2_theorem (st : RState) (k : String) (info : Pending)
    (c : ContentChange) (l : List Char)
    (he : st.editor = true)
    (hlt : st.loadingTasks = [(k, info)])
    (hk : taskKey st.doc.uri info.lineNumber = k)
    (hu : info.documentUri = st.doc.uri)
    (hm : hasDoneMarker c.text = true)
    (h1 : c.startLine - 2 ≤ info.lineNumber)
    (h2 : info.lineNumber ≤
      max c.endLine (c.startLine + (splitNl c.text).length - 1) + 2)
    (hline : st.doc.lines.get? info.lineNumber = some l)
    (hdone : hasDoneMarker l = true) :
    (checkForTaskCompletion st.doc.uri [c] st).loadingTasks = [] ∧
    getA (checkForTaskCompletion st.doc.uri [c] st).buttons k =
      some BState.Normal ∧
    getA (checkForTaskCompletion st.doc.uri [c] st).deco k =
      some Deco.SuccessD ∧
    ∀ t ∈ (checkForTaskCompletion st.doc.uri [c] st).timers,
      t.id ≠ info.timeoutId := by
  have hstep : checkForTaskCompletion st.doc.uri [c] st =
      endTaskExecution info.lineNumber true st := by
    unfold checkForTaskCompletion
    rw [hlt]
    simp only [List.isEmpty_cons, Bool.false_eq_true, if_false, List.foldl_cons,
      List.foldl_nil]
    unfold processChange
    rw [hm]
    simp only [if_true]
    rw [hlt]
    unfold scanPending
    rw [hu, hline]
    simp [h1, h2, hdone]
  rw [hstep]
  unfold endTaskExecution
  rw [he]
  simp only [Bool.not_true, Bool.false_eq_true, if_false]
  rw [hk, hlt]
  have hget1 : getA [(k, info)] k = some info := by simp [getA]
  simp only [hget1]
  refine ⟨?_, ?_, ?_, ?_⟩
  · simp [delA]
  · exact getA_setA_self _ _ _
  · exact getA_setA_self _ _ _
  · intro t ht
    simp only [List.mem_filter, Bool.not_eq_true'] at ht
    simpa using ht.2

/-- Claim C2, witness: the dash-bullet completion `- [x] d` on the pending
line 0 of `stDashX`. -/
theorem C2_witness :
    (checkForTaskCompletion stDashX.doc.uri [⟨"- [x] d".toList, 0, 0⟩]
      stDashX).loadingTasks = [] ∧
    getA (checkForTaskCompletion stDashX.doc.uri [⟨"- [x] d".toList, 0, 0⟩]
      stDashX).buttons (taskKey "u" 0) = some BState.Normal ∧
    getA (checkForTaskCompletion stDashX.doc.uri [⟨"- [x] d".toList, 0, 0⟩]
      stDashX).deco (taskKey "u" 0) = some Deco.SuccessD ∧
    ∀ t ∈ (checkForTaskCompletion stDashX.doc.uri [⟨"- [x] d".toList, 0, 0⟩]
      stDashX).timers, t.id ≠ 5 :=
  C2_theorem stDashX (taskKey "u" 0) ⟨0, "u", 5⟩ ⟨"- [x] d".toList, 0, 0⟩
    ("- [x] d".toList) (by decide) rfl (by decide) (by decide) (by decide)
    (by decide) (by decide) (by decide) (by decide)

theorem setLineD_uri (doc : Document) (n : Nat) (l : List Char) :
    (setLineD doc n l).uri = doc.uri := rfl

theorem setLineD_lines (doc : Document) (n : Nat) (l : List Char) :
    (setLineD doc n l).lines = doc.lines.set n l := rfl

/-- Claim C8, counterexample: the single line of `docMixed`,
`- [ ] a - [x] b`, is a Pending task, but Start then Abort does not
restore the document: Start rewrites the first `- [ ]` to `- [-]`, and
Abort's `markTaskIncomplete` checks for `- [x]` FIRST, so it un-checks the
unrelated second checkbox instead of reverting the marker, leaving
`- [-] a - [ ] b`. -/
theorem C8_counterexample :
    Option.map (fun t => (t.isCompleted, t.isExecuting))
      (parseTaskLine ("- [ ] a - [x] b".toList) 0) = some (false, false) ∧
    (abortTask 0 (startTaskExecution 0 stMixed)).doc.lines =
      ["- [-] a - [ ] b".toList] ∧
    (abortTask 0 (startTaskExecution 0 stMixed)).doc ≠ stMixed.doc := by
  refine ⟨by decide, by decide, by decide⟩

/-- Claim C8, amended: for a Pending task line of the shape
`<ws>- [ ]<rest>` — leading whitespace, then the dash-bullet unchecked
marker at the head, with non-empty `rest` — whose remainder contains no
other `- [x]` occurrence, Start followed by Abort restores the document
text exactly, deletes the PendingExecution, cancels its timeout, and sets
ButtonState to `Normal`. -/
theorem C8_theorem (st : RState) (n : Nat) (ws rest : List Char)
    (he : st.editor = true)
    (hline : st.doc.lines.get? n = some (ws ++ pUnchecked ++ rest))
    (hws : ∀ c ∈ ws, isWhite c = true)
    (hrest : rest ≠ [])
    (hx : containsSub rest pChecked = false) :
    Option.map (fun t => (t.isCompleted, t.isExecuting))
      (parseTaskLine (ws ++ pUnchecked ++ rest) n) = some (false, false) ∧
    (abortTask n (startTaskExecution n st)).doc = st.doc ∧
    getA (abortTask n (startTaskExecution n st)).loadingTasks
      (taskKey st.doc.uri n) = none ∧
    getA (abortTask n (startTaskExecution n st)).buttons
      (taskKey st.doc.uri n) = some BState.Normal ∧
    ∀ t ∈ (abortTask n (startTaskExecution n st)).timers,
      t.id ≠ st.nextTimer := by
  have hcon1 : containsSub (ws ++ pUnchecked ++ rest) pUnchecked = true :=
    containsSub_decomp ws pUnchecked rest
  have hrep1 : replaceFirst (ws ++ pUnchecked ++ rest) pUnchecked pExec =
      ws ++ pExec ++ rest := by
    rw [show pUnchecked = '-' :: [wsp, '[', wsp, ']'] from rfl]
    exact replaceFirst_ws ws [wsp, '[', wsp, ']'] rest pExec hws
  have hstart : startTaskExecution n st = { st with
      doc := setLineD st.doc n (ws ++ pExec ++ rest)
      timers := st.timers ++
        [⟨st.nextTimer, st.doc.uri, n, taskKey st.doc.uri n⟩]
      loadingTasks := setA st.loadingTasks (taskKey st.doc.uri n)
        ⟨n, st.doc.uri, st.nextTimer⟩
      buttons := setA st.buttons (taskKey st.doc.uri n) BState.Loading
      deco := setA st.deco (taskKey st.doc.uri n) Deco.LoadingD
      nextTimer := st.nextTimer + 1 } := by
    unfold startTaskExecution markTaskExecuting
    rw [he]
    simp only [Bool.not_true, Bool.false_eq_true, if_false, hline, hcon1,
      if_true, hrep1]
  have hline2 : (st.doc.lines.set n (ws ++ pExec ++ rest)).get? n =
      some (ws ++ pExec ++ rest) :=
    get?_set_self st.doc.lines n _ _ hline
  have hxc : containsSub (ws ++ pExec ++ rest) pChecked = false :=
    containsSub_ws_exec_checked ws rest hws hx
  have hce : containsSub (ws ++ pExec ++ rest) pExec = true :=
    containsSub_decomp ws pExec rest
  have hrep2 : replaceFirst (ws ++ pExec ++ rest) pExec pUnchecked =
      ws ++ pUnchecked ++ rest := by
    rw [show pExec = '-' :: [wsp, '[', '-', ']'] from rfl]
    exact replaceFirst_ws ws [wsp, '[', '-', ']'] rest pUnchecked hws
  have hdocrt : setLineD (setLineD st.doc n (ws ++ pExec ++ rest)) n
      (ws ++ pUnchecked ++ rest) = st.doc := by
    unfold setLineD
    simp only [List.set_set]
    rw [set_get?_self st.doc.lines n _ hline]
  have habort : abortTask n (startTaskExecution n st) = { st with
      doc := st.doc
      loadingTasks := delA (setA st.loadingTasks (taskKey st.doc.uri n)
        ⟨n, st.doc.uri, st.nextTimer⟩) (taskKey st.doc.uri n)
      timers := (st.timers ++
        [({ id := st.nextTimer, uri := st.doc.uri, line := n,
            key := taskKey st.doc.uri n } : Timer)]).filter
          (fun t => !(t.id = st.nextTimer : Bool))
      buttons := setA (setA st.buttons (taskKey st.doc.uri n) BState.Loading)
        (taskKey st.doc.uri n) BState.Normal
      deco := setA (setA st.deco (taskKey st.doc.uri n) Deco.LoadingD)
        (taskKey st.doc.uri n) Deco.NoneD
      nextTimer := st.nextTimer + 1 } := by
    rw [hstart]
    unfold abortTask
    rw [he]
    simp only [setLineD_uri, setLineD_lines, Bool.not_true,
      Bool.false_eq_true, if_false, getA_setA_self, markTaskIncomplete,
      hline2, hxc, hce, if_true, hrep2, hdocrt]
  refine ⟨?_, ?_, ?_, ?_, ?_⟩
  · have e : ws ++ pUnchecked ++ rest =
        ws ++ '-' :: ([wsp] ++ '[' :: wsp :: ']' :: rest) := by
      simp [pUnchecked]
    rw [e, parseTaskLine_decomp ws [wsp] rest '-' wsp n hws (by decide)
      (by decide) (by decide) hrest]
    rfl
  · rw [habort]
  · rw [habort]
    exact getA_delA_self _ _
  · rw [habort]
    exact getA_setA_self _ _ _
  · rw [habort]
    intro t ht
    simp only [List.mem_filter, Bool.not_eq_true'] at ht
    simpa using ht.2

/-- Claim C8, witness: Start then Abort on the plain Pending line
`- [ ] a` of `stA`. -/
theorem C8_witness :
    Option.map (fun t => (t.isCompleted, t.isExecuting))
      (parseTaskLine ([] ++ pUnchecked ++ [wsp, 'a']) 0) =
        some (false, false) ∧
    (abortTask 0 (startTaskExecution 0 stA)).doc = stA.doc ∧
    getA (abortTask 0 (startTaskExecution 0 stA)).loadingTasks
      (taskKey stA.doc.uri 0) = none ∧
    getA (abortTask 0 (startTaskExecution 0 stA)).buttons
      (taskKey stA.doc.uri 0) = some BState.Normal ∧
    ∀ t ∈ (abortTask 0 (startTaskExecution 0 stA)).timers,
      t.id ≠ stA.nextTimer :=
  C8_theorem stA 0 [] [wsp, 'a'] (by decide) (by decide) (by decide)
    (by decide) (by decide)

end PufferFlow
